import Mathlib

/-!
Verification of the schema-to-model generator (postgres-model-generator).

The Go sources are shallowly embedded: pure functions become Lean
functions on `List Char` / `String`, the catalog scan becomes explicit
folding over a list of per-row scan outcomes, and fatal failures
(`log.Fatal`) become `Except` errors.  Components the specification
describes but whose code is not in the sources (the type-mapping table,
the renderer driver loop) are modelled from the spec and marked as such
in their doc comments.
-/

namespace PGModelGen

/-- Loop body of `toCamelCase` (main.go).  The flag is the state
`i == 0 || toUpper` of the Go loop: when set, the current character is
emitted upper-cased (note `unicode.ToUpper('_') = '_'`) and the flag
clears; when clear, an underscore is dropped and sets the flag, and any
other character passes through.  `Char.toUpper` embeds `unicode.ToUpper`
(ASCII case mapping, which covers every identifier this generator
handles). -/
def camelAux : Bool → List Char → List Char
  | _, [] => []
  | true, c :: cs => c.toUpper :: camelAux false cs
  | false, c :: cs => if c = '_' then camelAux true cs else c :: camelAux false cs

/-- `toCamelCase` from main.go: the identifier normalizer.  The sources
apply no acronym substitutions after camel-casing. -/
def toCamelCase (s : String) : String := ⟨camelAux true s.data⟩

/-- Spec-side apparatus: upper-case the first character of a word. -/
def capWord : List Char → List Char
  | [] => []
  | c :: cs => c.toUpper :: cs

/-- Spec-side apparatus: rebuild an identifier from words separated by
single underscores. -/
def joinWords : List (List Char) → List Char
  | [] => []
  | [w] => w
  | w :: ws => w ++ '_' :: joinWords ws

/-- `DBColumn` from main.go.  The `interface\x7b\x7d`-typed scan targets
(`ColumnDefault`, `DataType`) and the `*int` targets are modelled as
`Option` values (absent / present). -/
structure DBColumn where
  ColumnName : String
  OrdinalPosition : Int
  ColumnDefault : Option String
  IsNullable : Bool
  DataType : Option String
  UDTName : String
  CharacterMaximumLength : Option Int
  CharacterOctetLength : Option Int
  NumericPrecision : Option Int
deriving DecidableEq

/-- `DBTables` from main.go (`map[string][]DBColumn`), modelled as an
association list with unique keys in insertion order. -/
def DBTables : Type := List (String × List DBColumn)

/-- The map update of the scan loop in `GetAllTables`: create the entry
on first encounter of a table name, then append the column to its
list. -/
def addColumn : List (String × List DBColumn) → String → DBColumn → List (String × List DBColumn)
  | [], t, col => [(t, [col])]
  | (k, cols) :: rest, t, col =>
      if k = t then (k, cols ++ [col]) :: rest
      else (k, cols) :: addColumn rest t col

/-- Map lookup on the association list, returning `[]` for an absent
key (the zero value a Go map read yields). -/
def tableColumns : List (String × List DBColumn) → String → List DBColumn
  | [], _ => []
  | (k, cols) :: rest, t => if k = t then cols else tableColumns rest t

/-- Outcome of `rows.Scan` for one result row: either a scan error
(message) or the table name together with the parsed column. -/
def RowScan : Type := Except String (String × DBColumn)

/-- The `rows.Next` loop of `GetAllTables`: a row whose scan fails is
logged and skipped (`continue`); a parsed row is filed under its table
name. -/
def processRows : List (String × List DBColumn) → List RowScan → List (String × List DBColumn)
  | tables, [] => tables
  | tables, Except.error _ :: rest => processRows tables rest
  | tables, Except.ok (t, col) :: rest => processRows (addColumn tables t col) rest

/-- Error kind of the fetch stage: the metadata query could not
execute (`log.Fatal` on `db.Query` failure). -/
inductive CatalogError where
  | catalogUnavailable
deriving DecidableEq

/-- `GetAllTables` from main.go over the outcome of `db.Query`: a query
failure is fatal (`log.Fatal`, embedded as `Except.error`); on success
the rows are folded into the table map starting from the empty map. -/
def getAllTables (queryResult : Except String (List RowScan)) :
    Except CatalogError (List (String × List DBColumn)) :=
  match queryResult with
  | Except.error _ => Except.error CatalogError.catalogUnavailable
  | Except.ok rows => Except.ok (processRows [] rows)

/-- The catalog query string `q` of `GetAllTables` (main.go), verbatim
from the Go raw string literal. -/
def catalogQuery : String :=
  "\n\tSELECT \n\t\tc.table_name, c.column_name, c.ordinal_position, c.column_default, bool(c.is_nullable), c.data_type, c.udt_name, \n\t\tc.character_maximum_length, c.character_octet_length, c.numeric_precision\n\tFROM \n\t\tinformation_schema.columns AS c \n\tJOIN\n\t\tinformation_schema.tables as t\n\tON\n\t\tt.table_name = c.table_name\n\tWHERE \n\t\tt.table_schema = 'public' AND t.table_type = 'BASE TABLE'\n\tORDER BY \n\t\tc.table_name;\n\t"

/-- Whitespace tokenizer, used to state the shape of the catalog query
independently of its layout.  First argument: the current token,
reversed. -/
def wsAux : List Char → List Char → List String
  | cur, [] => if cur.isEmpty then [] else [⟨cur.reverse⟩]
  | cur, c :: cs =>
      if c.isWhitespace then
        if cur.isEmpty then wsAux [] cs else (⟨cur.reverse⟩ : String) :: wsAux [] cs
      else wsAux (c :: cur) cs

/-- Split a string into maximal whitespace-free tokens. -/
def wsTokens (s : String) : List String := wsAux [] s.data

/-- `Field` from main.go. -/
structure Field where
  Name : String
  «Type» : String
  Tag : String
deriving DecidableEq

/-- `Model` from main.go.  Note it carries no original table name. -/
structure Model where
  Name : String
  Fields : List Field
deriving DecidableEq

/-- Rendering of one field by the `range .Fields` body of `modelTpl`:
`\x7b\x7b.Name\x7d\x7d \x7b\x7b.Type\x7d\x7d \x7b\x7b.Tag\x7d\x7d `. -/
def renderField (f : Field) : String :=
  f.Name ++ " " ++ f.«Type» ++ " " ++ f.Tag ++ " "

/-- Rendering of one model by `modelTpl` (main.go), i.e. the output of
`template.Execute` on it: the declaration block with one tagged field
line per field, in field order.  The template emits no table-binding
marker and `Model` carries no table name. -/
def renderModel (m : Model) : String :=
  "\ntype " ++ m.Name ++ " struct \x7b\n\t"
    ++ String.join (m.Fields.map renderField) ++ "\n\x7d\n"

/-- `headerTpl` from main.go, verbatim: the fixed preamble. -/
def headerTpl : String :=
  "\npackage models\n\nimport (\n\t\"time\"\n)\n\nvar (\n\t_ = time.Time\n)\n"

/-- Spec-side apparatus: concatenation of a list of rendered blocks. -/
def concatBlocks : List String → String
  | [] => ""
  | s :: rest => s ++ concatBlocks rest

/-- Modelled from the spec: the renderer driver that emits the fixed
preamble followed by one declaration block per model in input order
(spec, Renderer).  This driver loop is not in the sources (the main in
the sources renders a single hard-coded test model and never uses
`headerTpl`); the preamble and the per-model block come verbatim from
the `headerTpl` / `modelTpl` templates that are in the sources. -/
def render (models : List Model) : String :=
  models.foldl (fun acc m => acc ++ renderModel m) headerTpl

/-- The hard-coded model built in `main` (main.go). -/
def mainModel : Model :=
  { Name := toCamelCase "test_testing_model"
    Fields := [{ Name := toCamelCase "field_id"
                 «Type» := "int64"
                 Tag := "sql:\"field_id\"" }] }

/-- The run after `MustNewDB`: `GetAllTables` first, then template
execution (main.go).  `log.Fatal` inside the fetch aborts the process,
so a query failure yields no output and no later stage runs; this is
embedded as `Except` propagation. -/
def runGenerator (queryResult : Except String (List RowScan)) :
    Except CatalogError String :=
  match getAllTables queryResult with
  | Except.error e => Except.error e
  | Except.ok _ => Except.ok (renderModel mainModel)

/-- Error kind of the type mapper: no mapping entry for a UDT name. -/
inductive TypeError where
  | typeNotFound
deriving DecidableEq

/-- Modelled from the spec: the Type Mapper's static mapping table
(spec, Type Mapper) is not in the sources; each pair maps a target type
to the set of UDT names it covers, transcribed from the spec's list. -/
def typeMapping : List (String × List String) :=
  [ ("integer", ["int2", "int4", "int8"])
  , ("text", ["varchar", "text", "uuid"])
  , ("boolean", ["bool"])
  , ("timestamp", ["timestamp", "date"])
  , ("json", ["jsonb", "json"])
  , ("string-array", ["_text", "_varchar", "tsvector"])
  , ("integer-array", ["_int2", "_int4", "_int8"]) ]

/-- Modelled from the spec: `resolve` scans the mapping pairs linearly,
first match wins, and an unmapped token is a `TypeNotFound` failure
(spec, Type Mapper). -/
def resolve (udtName : String) : Except TypeError String :=
  match typeMapping.find? (fun p => p.2.contains udtName) with
  | some p => Except.ok p.1
  | none => Except.error TypeError.typeNotFound

/-- All UDT names covered by the mapping table. -/
def mappedUDTNames : List String := typeMapping.flatMap (fun p => p.2)

/-- A sample parsed column, used to instantiate universally quantified
theorems at concrete inputs. -/
def sampleColumn : DBColumn :=
  { ColumnName := "id"
    OrdinalPosition := 1
    ColumnDefault := none
    IsNullable := false
    DataType := some "integer"
    UDTName := "int4"
    CharacterMaximumLength := none
    CharacterOctetLength := none
    NumericPrecision := none }

/-- A second sample column. -/
def sampleColumn2 : DBColumn :=
  { ColumnName := "email"
    OrdinalPosition := 2
    ColumnDefault := none
    IsNullable := true
    DataType := some "character varying"
    UDTName := "varchar"
    CharacterMaximumLength := some 255
    CharacterOctetLength := some 1020
    NumericPrecision := none }

end PGModelGen

deriving instance DecidableEq for Except

namespace PGModelGen

theorem toNat_char_ofNat_of_lt {m : Nat} (h : m < 55296) : (Char.ofNat m).toNat = m := by
  have hv : m.isValidChar := Or.inl h
  unfold Char.ofNat
  rw [dif_pos hv]
  rfl

theorem char_toUpper_eq (c : Char) :
    c.toUpper = if 97 ≤ c.toNat ∧ c.toNat ≤ 122 then Char.ofNat (c.toNat - 32) else c := rfl

theorem toUpper_toNat (c : Char) :
    c.toUpper.toNat = if 97 ≤ c.toNat ∧ c.toNat ≤ 122 then c.toNat - 32 else c.toNat := by
  rw [char_toUpper_eq]
  by_cases h : 97 ≤ c.toNat ∧ c.toNat ≤ 122
  · rw [if_pos h, if_pos h, toNat_char_ofNat_of_lt (by omega)]
  · rw [if_neg h, if_neg h]

theorem char_eq_of_toNat_eq {c d : Char} (h : c.toNat = d.toNat) : c = d := by
  rw [← Char.ofNat_toNat c, ← Char.ofNat_toNat d, h]

theorem toUpper_toUpper (c : Char) : c.toUpper.toUpper = c.toUpper := by
  apply char_eq_of_toNat_eq
  rw [toUpper_toNat c.toUpper]
  have hk := toUpper_toNat c
  by_cases h : 97 ≤ c.toNat ∧ c.toNat ≤ 122
  · rw [if_pos h] at hk
    rw [if_neg (by omega)]
  · rw [if_neg h] at hk
    rw [if_neg (by omega)]

theorem toUpper_ne_underscore {c : Char} (h : c ≠ '_') : c.toUpper ≠ '_' := by
  intro he
  have h95 : c.toUpper.toNat = 95 := by rw [he]; rfl
  rw [toUpper_toNat] at h95
  by_cases hc : 97 ≤ c.toNat ∧ c.toNat ≤ 122
  · rw [if_pos hc] at h95
    omega
  · rw [if_neg hc] at h95
    exact h (char_eq_of_toNat_eq (by rw [h95]; rfl))

theorem camelAux_false_id {l : List Char} (h : '_' ∉ l) : camelAux false l = l := by
  induction l with
  | nil => rfl
  | cons c cs ih =>
    have hc : c ≠ '_' := fun e => h (List.mem_cons.mpr (Or.inl e.symm))
    have htl : '_' ∉ cs := fun hm => h (List.mem_cons.mpr (Or.inr hm))
    show (if c = '_' then camelAux true cs else c :: camelAux false cs) = c :: cs
    rw [if_neg hc, ih htl]

theorem camelAux_false_append {w rest : List Char} (h : '_' ∉ w) :
    camelAux false (w ++ '_' :: rest) = w ++ camelAux true rest := by
  induction w with
  | nil =>
    show (if ('_' : Char) = '_' then camelAux true rest else '_' :: camelAux false rest)
      = camelAux true rest
    rw [if_pos rfl]
  | cons c cs ih =>
    have hc : c ≠ '_' := fun e => h (List.mem_cons.mpr (Or.inl e.symm))
    have htl : '_' ∉ cs := fun hm => h (List.mem_cons.mpr (Or.inr hm))
    show (if c = '_' then camelAux true (cs ++ '_' :: rest)
        else c :: camelAux false (cs ++ '_' :: rest)) = c :: (cs ++ camelAux true rest)
    rw [if_neg hc, ih htl]

theorem camelAux_true_word {w : List Char} (h : '_' ∉ w) : camelAux true w = capWord w := by
  cases w with
  | nil => rfl
  | cons c cs =>
    have htl : '_' ∉ cs := fun hm => h (List.mem_cons.mpr (Or.inr hm))
    show c.toUpper :: camelAux false cs = c.toUpper :: cs
    rw [camelAux_false_id htl]

theorem camelAux_true_joinWords (ws : List (List Char))
    (hw : ∀ w ∈ ws, '_' ∉ w) (hne : ∀ w ∈ ws.dropLast, w ≠ []) :
    camelAux true (joinWords ws) = (ws.map capWord).flatten := by
  induction ws with
  | nil => rfl
  | cons w tail ih =>
    cases tail with
    | nil =>
      show camelAux true w = capWord w ++ ([] : List (List Char)).flatten
      rw [camelAux_true_word (hw w (List.mem_cons_self w _)), List.flatten_nil,
        List.append_nil]
    | cons w2 ws2 =>
      have hw0 : w ≠ [] := hne w (List.mem_cons_self w ((w2 :: ws2).dropLast))
      obtain ⟨c, cs, rfl⟩ := List.exists_cons_of_ne_nil hw0
      have hcw : '_' ∉ c :: cs := hw _ (List.mem_cons_self _ _)
      have htl : '_' ∉ cs := fun hm => hcw (List.mem_cons.mpr (Or.inr hm))
      have ihh := ih (fun w hwm => hw w (List.mem_cons_of_mem _ hwm))
        (fun w hwm => hne w (List.mem_cons_of_mem _ hwm))
      show c.toUpper :: camelAux false (cs ++ '_' :: joinWords (w2 :: ws2))
        = (c.toUpper :: cs) ++ ((w2 :: ws2).map capWord).flatten
      rw [camelAux_false_append htl, ihh, List.cons_append]

theorem camelAux_idem {l : List Char} (h : '_' ∉ l) :
    camelAux true (camelAux true l) = camelAux true l := by
  cases l with
  | nil => rfl
  | cons c cs =>
    have htl : '_' ∉ cs := fun hm => h (List.mem_cons.mpr (Or.inr hm))
    show camelAux true (c.toUpper :: camelAux false cs)
      = c.toUpper :: camelAux false cs
    rw [camelAux_false_id htl]
    show c.toUpper.toUpper :: camelAux false cs = c.toUpper :: cs
    rw [camelAux_false_id htl, toUpper_toUpper]

theorem tableColumns_addColumn (tables : List (String × List DBColumn)) (t' : String)
    (col' : DBColumn) (t : String) :
    tableColumns (addColumn tables t' col') t =
      if t' = t then tableColumns tables t ++ [col'] else tableColumns tables t := by
  induction tables with
  | nil =>
    show (if t' = t then [col'] else tableColumns [] t)
      = if t' = t then tableColumns [] t ++ [col'] else tableColumns [] t
    by_cases h : t' = t
    · rw [if_pos h, if_pos h]
      rfl
    · rw [if_neg h, if_neg h]
  | cons p rest ih =>
    obtain ⟨k, cols⟩ := p
    show tableColumns (if k = t' then (k, cols ++ [col']) :: rest
        else (k, cols) :: addColumn rest t' col') t = _
    by_cases hk : k = t'
    · subst hk
      rw [if_pos rfl]
      show (if k = t then cols ++ [col'] else tableColumns rest t) = _
      by_cases ht : k = t
      · rw [if_pos ht, if_pos ht]
        show _ = (if k = t then cols else tableColumns rest t) ++ [col']
        rw [if_pos ht]
      · rw [if_neg ht, if_neg ht]
        show _ = if k = t then cols else tableColumns rest t
        rw [if_neg ht]
    · rw [if_neg hk]
      show (if k = t then cols else tableColumns (addColumn rest t' col') t) = _
      by_cases ht : k = t
      · rw [if_pos ht]
        have ht' : ¬ t' = t := fun e => hk (ht.trans e.symm)
        rw [if_neg ht']
        show cols = if k = t then cols else tableColumns rest t
        rw [if_pos ht]
      · rw [if_neg ht, ih]
        by_cases htt : t' = t
        · rw [if_pos htt, if_pos htt]
          show tableColumns rest t ++ [col']
            = (if k = t then cols else tableColumns rest t) ++ [col']
          rw [if_neg ht]
        · rw [if_neg htt, if_neg htt]
          show tableColumns rest t = if k = t then cols else tableColumns rest t
          rw [if_neg ht]

theorem mem_tableColumns_processRows (rows : List RowScan) :
    ∀ (tables : List (String × List DBColumn)) {t : String} {col : DBColumn},
    col ∈ tableColumns tables t → col ∈ tableColumns (processRows tables rows) t := by
  induction rows with
  | nil => intro tables t col h; exact h
  | cons r rest ih =>
    intro tables t col h
    match r with
    | Except.error _ => exact ih tables h
    | Except.ok (t1, c1) =>
      apply ih
      rw [tableColumns_addColumn]
      by_cases h1 : t1 = t
      · rw [if_pos h1]
        exact List.mem_append_left _ h
      · rw [if_neg h1]
        exact h

theorem mem_processRows_of_mem (rows : List RowScan) {t : String} {col : DBColumn}
    (h : Except.ok (t, col) ∈ rows) :
    ∀ tables, col ∈ tableColumns (processRows tables rows) t := by
  induction rows with
  | nil => cases h
  | cons r rest ih =>
    intro tables
    rcases List.mem_cons.mp h with he | hm
    · subst he
      show col ∈ tableColumns (processRows (addColumn tables t col) rest) t
      apply mem_tableColumns_processRows
      rw [tableColumns_addColumn, if_pos rfl]
      exact List.mem_append_right _ (List.mem_singleton.mpr rfl)
    · match r with
      | Except.error _ => exact ih hm tables
      | Except.ok (t1, c1) => exact ih hm (addColumn tables t1 c1)

theorem mem_rows_of_mem_processRows (rows : List RowScan) :
    ∀ (tables : List (String × List DBColumn)) {t : String} {col : DBColumn},
    col ∈ tableColumns (processRows tables rows) t →
    col ∈ tableColumns tables t ∨ Except.ok (t, col) ∈ rows := by
  induction rows with
  | nil => intro tables t col h; exact Or.inl h
  | cons r rest ih =>
    intro tables t col h
    match r with
    | Except.error e =>
      rcases ih tables h with h1 | h1
      · exact Or.inl h1
      · exact Or.inr (List.mem_cons_of_mem _ h1)
    | Except.ok (t1, c1) =>
      rcases ih (addColumn tables t1 c1) h with h1 | h1
      · rw [tableColumns_addColumn] at h1
        by_cases ht : t1 = t
        · rw [if_pos ht] at h1
          rcases List.mem_append.mp h1 with h2 | h2
          · exact Or.inl h2
          · have : col = c1 := List.mem_singleton.mp h2
            subst this
            subst ht
            exact Or.inr (List.mem_cons_self _ _)
        · rw [if_neg ht] at h1
          exact Or.inl h1
      · exact Or.inr (List.mem_cons_of_mem _ h1)

theorem addColumn_cons (k : String) (cols : List DBColumn)
    (rest : List (String × List DBColumn)) (t : String) (col : DBColumn) :
    addColumn ((k, cols) :: rest) t col
      = if k = t then (k, cols ++ [col]) :: rest
        else (k, cols) :: addColumn rest t col := rfl

theorem addColumn_keeps_nonempty (tables : List (String × List DBColumn))
    (t : String) (col : DBColumn) (h : ∀ p ∈ tables, p.2 ≠ []) :
    ∀ p ∈ addColumn tables t col, p.2 ≠ [] := by
  induction tables with
  | nil =>
    intro p hp
    rw [List.mem_singleton.mp hp]
    exact List.cons_ne_nil _ _
  | cons q rest ih =>
    obtain ⟨k, cols⟩ := q
    intro p hp
    rw [addColumn_cons] at hp
    by_cases hk : k = t
    · rw [if_pos hk] at hp
      rcases List.mem_cons.mp hp with he | hm
      · subst he
        simp
      · exact h p (List.mem_cons_of_mem _ hm)
    · rw [if_neg hk] at hp
      rcases List.mem_cons.mp hp with he | hm
      · subst he
        exact h (k, cols) (List.mem_cons_self _ _)
      · exact ih (fun q hq => h q (List.mem_cons_of_mem _ hq)) p hm

theorem processRows_keeps_nonempty (rows : List RowScan) :
    ∀ (tables : List (String × List DBColumn)), (∀ p ∈ tables, p.2 ≠ []) →
    ∀ p ∈ processRows tables rows, p.2 ≠ [] := by
  induction rows with
  | nil => intro tables h p hp; exact h p hp
  | cons r rest ih =>
    intro tables h p hp
    match r with
    | Except.error _ => exact ih tables h p hp
    | Except.ok (t1, c1) =>
      exact ih (addColumn tables t1 c1) (addColumn_keeps_nonempty tables t1 c1 h) p hp

theorem foldl_render_eq (models : List Model) :
    ∀ init : String,
    models.foldl (fun acc m => acc ++ renderModel m) init
      = init ++ concatBlocks (models.map renderModel) := by
  induction models with
  | nil =>
    intro init
    show init = init ++ ""
    rw [String.append_empty]
  | cons m ms ih =>
    intro init
    show ms.foldl _ (init ++ renderModel m)
      = init ++ (renderModel m ++ concatBlocks (ms.map renderModel))
    rw [ih, String.append_assoc]

example : toCamelCase "field_id" = "FieldId" := by decide
example : toCamelCase "user_uuid" = "UserUuid" := by decide
example : toCamelCase "_a" = "_a" := by decide
example : toCamelCase "a__b" = "A_b" := by decide
example : toCamelCase "test_testing_model" = "TestTestingModel" := by decide
example : resolve "int8" = Except.ok "integer" := rfl
example : resolve "bytea" = Except.error TypeError.typeNotFound := rfl
example :
    processRows [] [Except.ok ("users", sampleColumn), Except.error "bad row",
      Except.ok ("users", sampleColumn2)]
      = [("users", [sampleColumn, sampleColumn2])] := by decide
example :
    wsTokens "a  bc\n\td " = ["a", "bc", "d"] := by decide

/-- Claim C1, counterexample: the normalizer in the sources returns
`"FieldId"` for `"field_id"`, not `"FieldID"` — no acronym substitution
is applied after camel-casing. -/
theorem toCamelCase_field_id_ne_FieldID :
    toCamelCase "field_id" = "FieldId" ∧ ("FieldId" : String) ≠ "FieldID" :=
  ⟨by decide, by decide⟩

/-- Claim C1, amended: the identifier normalizer is camel-casing alone;
no acronym substitutions are applied, so `normalize("field_id")` is
`"FieldId"` and `normalize("user_uuid")` is `"UserUuid"`. -/
theorem toCamelCase_applies_no_acronym_substitutions :
    toCamelCase "field_id" = "FieldId" ∧ toCamelCase "user_uuid" = "UserUuid" :=
  ⟨by decide, by decide⟩

/-- Claim C2: the type resolver is total over the documented mapping
table — every listed UDT name yields the stated target type, and every
UDT name outside the table fails with `TypeNotFound`. -/
theorem resolve_total_on_documented_table :
    (resolve "int2" = Except.ok "integer" ∧ resolve "int4" = Except.ok "integer" ∧
     resolve "int8" = Except.ok "integer" ∧ resolve "varchar" = Except.ok "text" ∧
     resolve "text" = Except.ok "text" ∧ resolve "uuid" = Except.ok "text" ∧
     resolve "bool" = Except.ok "boolean" ∧ resolve "timestamp" = Except.ok "timestamp" ∧
     resolve "date" = Except.ok "timestamp" ∧ resolve "jsonb" = Except.ok "json" ∧
     resolve "json" = Except.ok "json" ∧ resolve "_text" = Except.ok "string-array" ∧
     resolve "_varchar" = Except.ok "string-array" ∧
     resolve "tsvector" = Except.ok "string-array" ∧
     resolve "_int2" = Except.ok "integer-array" ∧
     resolve "_int4" = Except.ok "integer-array" ∧
     resolve "_int8" = Except.ok "integer-array") ∧
    ∀ u : String, u ∉ mappedUDTNames → resolve u = Except.error TypeError.typeNotFound := by
  constructor
  · exact ⟨rfl, rfl, rfl, rfl, rfl, rfl, rfl, rfl, rfl, rfl, rfl, rfl, rfl, rfl, rfl,
      rfl, rfl⟩
  · intro u hu
    have hfind : typeMapping.find? (fun p => p.2.contains u) = none := by
      rw [List.find?_eq_none]
      intro p hp hcon
      exact hu (List.mem_flatMap.mpr ⟨p, hp, List.mem_of_elem_eq_true hcon⟩)
    unfold resolve
    rw [hfind]

/-- Claim C2, witness: a UDT name outside the table, resolved to
`TypeNotFound`. -/
theorem resolve_total_on_documented_table_witness :
    ("bytea" : String) ∉ mappedUDTNames ∧
    resolve "bytea" = Except.error TypeError.typeNotFound :=
  ⟨by decide, resolve_total_on_documented_table.2 "bytea" (by decide)⟩

/-- Claim C3: a result row whose scan fails is skipped and the fetch
still succeeds, with the returned table set containing every row that
parsed successfully. -/
theorem getAllTables_keeps_all_parsed_rows (rows : List RowScan) (t : String)
    (col : DBColumn) (h : Except.ok (t, col) ∈ rows) :
    ∃ tables, getAllTables (Except.ok rows) = Except.ok tables ∧
      col ∈ tableColumns tables t :=
  ⟨processRows [] rows, rfl, mem_processRows_of_mem rows h []⟩

/-- Claim C3, witness: a good row, a bad row, then another good row —
both good rows are present in the result. -/
theorem getAllTables_keeps_all_parsed_rows_witness :
    (Except.ok ("users", sampleColumn2)
      ∈ ([Except.ok ("users", sampleColumn), Except.error "scan failure",
          Except.ok ("users", sampleColumn2)] : List RowScan)) ∧
    ∃ tables,
      getAllTables (Except.ok [Except.ok ("users", sampleColumn),
        Except.error "scan failure", Except.ok ("users", sampleColumn2)])
        = Except.ok tables ∧ sampleColumn2 ∈ tableColumns tables "users" :=
  ⟨by decide,
   getAllTables_keeps_all_parsed_rows _ "users" sampleColumn2 (by decide)⟩

set_option maxRecDepth 16384 in
/-- Claim C4: the catalog reader's single SQL statement selects exactly
the ten documented columns (with `is_nullable` cast to boolean) from the
joined column and table metadata views, filters to the public schema
and base tables, and orders by table name; the string holds exactly one
statement terminator. -/
theorem catalogQuery_single_statement_shape :
    wsTokens catalogQuery =
      ["SELECT",
       "c.table_name,", "c.column_name,", "c.ordinal_position,", "c.column_default,",
       "bool(c.is_nullable),", "c.data_type,", "c.udt_name,",
       "c.character_maximum_length,", "c.character_octet_length,",
       "c.numeric_precision",
       "FROM", "information_schema.columns", "AS", "c",
       "JOIN", "information_schema.tables", "as", "t",
       "ON", "t.table_name", "=", "c.table_name",
       "WHERE", "t.table_schema", "=", "'public'", "AND",
       "t.table_type", "=", "'BASE", "TABLE'",
       "ORDER", "BY", "c.table_name;"] ∧
    (catalogQuery.data.filter (fun c => c = ';')).length = 1 :=
  ⟨by decide, by decide⟩

/-- Claim C5, counterexample: an underscore in upper-case position is
emitted, not dropped — `toCamelCase "_a"` keeps its underscore, while
the claim requires every underscore to be dropped. -/
theorem toCamelCase_keeps_leading_underscore :
    toCamelCase "_a" = "_a" ∧ '_' ∈ (toCamelCase "_a").data ∧
    toCamelCase "a__b" = "A_b" :=
  ⟨by decide, by decide, by decide⟩

/-- Claim C5, amended: on inputs without a leading underscore and
without consecutive underscores — written as words joined by single
underscores, all words but possibly the last non-empty and
underscore-free — the transform upper-cases the first character of the
identifier and of each following word, drops the separating
underscores, and passes all other characters through unchanged. -/
theorem toCamelCase_words_spec (ws : List (List Char))
    (hw : ∀ w ∈ ws, '_' ∉ w) (hne : ∀ w ∈ ws.dropLast, w ≠ []) :
    toCamelCase ⟨joinWords ws⟩ = ⟨(ws.map capWord).flatten⟩ := by
  show (⟨camelAux true (joinWords ws)⟩ : String) = _
  rw [camelAux_true_joinWords ws hw hne]

/-- Claim C5, witness: the amended statement at `"field_id"`. -/
theorem toCamelCase_words_spec_witness :
    (∀ w ∈ ([['f', 'i', 'e', 'l', 'd'], ['i', 'd']] : List (List Char)), '_' ∉ w) ∧
    (∀ w ∈ ([['f', 'i', 'e', 'l', 'd'], ['i', 'd']] : List (List Char)).dropLast,
      w ≠ []) ∧
    toCamelCase ⟨joinWords [['f', 'i', 'e', 'l', 'd'], ['i', 'd']]⟩
      = ⟨([['f', 'i', 'e', 'l', 'd'], ['i', 'd']].map capWord).flatten⟩ :=
  ⟨by decide, by decide, toCamelCase_words_spec _ (by decide) (by decide)⟩

set_option maxRecDepth 65536 in
/-- Claim C6, counterexample: a model generated from table
`user_accounts` renders to a block that nowhere carries the original
table name — the `Model` type retains no table name and `modelTpl`
emits no table-binding marker. -/
theorem render_block_lacks_table_marker :
    toCamelCase "user_accounts" = "UserAccounts" ∧
    ¬ ("user_accounts".data <:+:
        (render [{ Name := toCamelCase "user_accounts"
                   Fields := [{ Name := toCamelCase "id"
                                «Type» := "int64"
                                Tag := "sql:\"id\"" }] }]).data) :=
  ⟨by decide, by decide⟩

/-- Claim C6, amended: the renderer's output is the fixed preamble
followed by, for each model in input order, one declaration block with
one tagged field line per field in field order; the block carries no
table-binding marker. -/
theorem render_preamble_then_blocks (models : List Model) :
    render models = headerTpl ++ concatBlocks (models.map renderModel) :=
  foldl_render_eq models headerTpl

/-- Claim C7: a catalog query failure makes the fetch fail with
`CatalogUnavailable`, no table set is produced, and no later pipeline
stage runs. -/
theorem getAllTables_query_failure_fatal (errMsg : String) :
    getAllTables (Except.error errMsg) = Except.error CatalogError.catalogUnavailable ∧
    runGenerator (Except.error errMsg) = Except.error CatalogError.catalogUnavailable :=
  ⟨rfl, rfl⟩

/-- Claim C8: every column filed under key `t` in the returned table
set came from a successfully scanned result row whose table name is
`t`. -/
theorem tableColumns_grouping_invariant (rows : List RowScan)
    (tables : List (String × List DBColumn)) (t : String) (col : DBColumn)
    (hres : getAllTables (Except.ok rows) = Except.ok tables)
    (hmem : col ∈ tableColumns tables t) :
    Except.ok (t, col) ∈ rows := by
  have heq : processRows [] rows = tables := by
    have : Except.ok (processRows [] rows)
        = (Except.ok tables : Except CatalogError (List (String × List DBColumn))) := hres
    injection this
  rw [← heq] at hmem
  rcases mem_rows_of_mem_processRows rows [] hmem with h | h
  · cases h
  · exact h

/-- Claim C8, witness: the invariant applied to a two-table result
set. -/
theorem tableColumns_grouping_invariant_witness :
    (getAllTables (Except.ok [Except.ok ("users", sampleColumn),
        Except.ok ("posts", sampleColumn2)])
      = Except.ok [("users", [sampleColumn]), ("posts", [sampleColumn2])]) ∧
    sampleColumn2 ∈ tableColumns
      [("users", [sampleColumn]), ("posts", [sampleColumn2])] "posts" ∧
    Except.ok ("posts", sampleColumn2)
      ∈ ([Except.ok ("users", sampleColumn),
          Except.ok ("posts", sampleColumn2)] : List RowScan) :=
  ⟨by decide, by decide,
   tableColumns_grouping_invariant
     [Except.ok ("users", sampleColumn), Except.ok ("posts", sampleColumn2)]
     [("users", [sampleColumn]), ("posts", [sampleColumn2])]
     "posts" sampleColumn2 (by decide) (by decide)⟩

/-- Claim C9: the normalizer is idempotent on identifiers without
underscores (and hence on all already-normalized identifiers: the
sources apply no acronym substitutions, so that proviso of the claim is
vacuous). -/
theorem toCamelCase_idempotent_on_normalized (s : String) (h : '_' ∉ s.data) :
    toCamelCase (toCamelCase s) = toCamelCase s := by
  show (⟨camelAux true (camelAux true s.data)⟩ : String) = ⟨camelAux true s.data⟩
  rw [camelAux_idem h]

/-- Claim C9, witness: idempotence at `"fieldId1"`. -/
theorem toCamelCase_idempotent_on_normalized_witness :
    '_' ∉ ("fieldId1" : String).data ∧
    toCamelCase (toCamelCase "fieldId1") = toCamelCase "fieldId1" :=
  ⟨by decide, toCamelCase_idempotent_on_normalized "fieldId1" (by decide)⟩

/-- Claim C10: every table-name key of the returned table set maps to a
non-empty column list. -/
theorem tables_values_nonempty (rows : List RowScan)
    (tables : List (String × List DBColumn)) (t : String) (cols : List DBColumn)
    (hres : getAllTables (Except.ok rows) = Except.ok tables)
    (hmem : (t, cols) ∈ tables) :
    cols ≠ [] := by
  have heq : processRows [] rows = tables := by
    have : Except.ok (processRows [] rows)
        = (Except.ok tables : Except CatalogError (List (String × List DBColumn))) := hres
    injection this
  rw [← heq] at hmem
  have := processRows_keeps_nonempty rows [] (by intro p hp; cases hp) (t, cols) hmem
  exact this

/-- Claim C10, witness: the non-emptiness fact at a one-row result
set. -/
theorem tables_values_nonempty_witness :
    (getAllTables (Except.ok [Except.ok ("users", sampleColumn)])
      = Except.ok [("users", [sampleColumn])]) ∧
    (("users", [sampleColumn])
      ∈ ([("users", [sampleColumn])] : List (String × List DBColumn))) ∧
    ([sampleColumn] : List DBColumn) ≠ [] :=
  ⟨by decide, by decide,
   tables_values_nonempty [Except.ok ("users", sampleColumn)]
     [("users", [sampleColumn])] "users" [sampleColumn] (by decide) (by decide)⟩

end PGModelGen
